import Mathlib

/-!
Verification development for the dependency-version solver (gps).

The embedding below mirrors, in Lean, the data model of the solver fixture
file (depspec, the fixture source manager, the basic reach map) and the
trace logging file, together with a model of the solver algorithm itself.
The solver implementation proper is not part of the available sources, so
its definitions are modelled from the specification document and are marked
as such in their doc comments.
-/

set_option maxHeartbeats 2000000

namespace GpsSpec

/-- Semantic version triple, the payload of a semver Version. -/
structure Sem where
  major : Nat
  minor : Nat
  patch : Nat
deriving DecidableEq, Repr

/-- Unpaired version variants: Semver, Branch, PlainTag (spec section 3). -/
inductive UnpairedVersion where
  | semver (s : Sem)
  | branch (s : String)
  | plain (s : String)
deriving DecidableEq, Repr

/-- Version: an unpaired version, a bare Revision, or a PairedVersion
binding one unpaired version to one revision (spec section 3). -/
inductive Version where
  | unpaired (u : UnpairedVersion)
  | rev (r : String)
  | paired (u : UnpairedVersion) (r : String)
deriving DecidableEq, Repr

/-- Whether a Version is a bare Revision (the Go type switch
used by depspecSourceManager.ListVersions). -/
def Version.isRev : Version → Bool
  | Version.rev _ => true
  | _ => false

/-- Underlying revision of a version, when it has one. -/
def revOf : Version → Option String
  | Version.rev r => some r
  | Version.paired _ r => some r
  | Version.unpaired _ => none

/-- Underlying unpaired part of a version, when it has one. -/
def unpairedOf : Version → Option UnpairedVersion
  | Version.unpaired u => some u
  | Version.paired u _ => some u
  | Version.rev _ => none

/-- Version.Matches from the version model: an unpaired version and any
paired version wrapping it (or sharing its revision) mutually match;
pairing is symmetric-comparable — a paired version matches another paired
version if either side matches (spec section 3).  This is the predicate
used by depspecSourceManager.GetProjectInfo (v.Matches(ds.v)). -/
def Version.Matches : Version → Version → Bool
  | Version.rev r, Version.rev r2 => r == r2
  | Version.rev r, Version.paired _ r2 => r == r2
  | Version.rev _, Version.unpaired _ => false
  | Version.unpaired u, Version.unpaired u2 => u == u2
  | Version.unpaired u, Version.paired u2 _ => u == u2
  | Version.unpaired _, Version.rev _ => false
  | Version.paired _ r, Version.rev r2 => r == r2
  | Version.paired u _, Version.unpaired u2 => u == u2
  | Version.paired u r, Version.paired u2 r2 => u == u2 || r == r2

/-- Lexicographic strict order on semver triples. -/
def Sem.ltb (a b : Sem) : Bool :=
  if a.major == b.major then
    if a.minor == b.minor then Nat.blt a.patch b.patch
    else Nat.blt a.minor b.minor
  else Nat.blt a.major b.major

/-- Comparison operators appearing in a semver range constraint. -/
inductive Cmp where
  | eqc
  | ge
  | gt
  | le
  | lt
deriving DecidableEq, Repr

/-- Evaluate one semver range conjunct against a candidate triple. -/
def cmpHolds : Cmp → Sem → Sem → Bool
  | Cmp.eqc, a, b => a == b
  | Cmp.ge, a, b => !(Sem.ltb a b)
  | Cmp.gt, a, b => Sem.ltb b a
  | Cmp.le, a, b => !(Sem.ltb b a)
  | Cmp.lt, a, b => Sem.ltb a b

/-- Constraint: polymorphic predicate over Version — wildcard any, exact
revision, exact branch, exact plain tag, or a semver range given as a
conjunction of comparisons (spec sections 3 and 4.1). -/
inductive Constraint where
  | any
  | revC (r : String)
  | branchC (s : String)
  | plainC (s : String)
  | semRange (cs : List (Cmp × Sem))
deriving DecidableEq, Repr

/-- Constraint.Matches: a bare-revision constraint matches exactly the
versions carrying that revision (a bare revision is never paired with an
unpaired version — it is compared as a plain revision constraint); a
semver range applies to the semver underlying an unpaired or paired
version and never matches a bare revision (spec section 4.1). -/
def Constraint.matches : Constraint → Version → Bool
  | Constraint.any, _ => true
  | Constraint.revC r, Version.rev r2 => r == r2
  | Constraint.revC r, Version.paired _ r2 => r == r2
  | Constraint.revC _, Version.unpaired _ => false
  | Constraint.branchC s, v => unpairedOf v == some (UnpairedVersion.branch s)
  | Constraint.plainC s, v => unpairedOf v == some (UnpairedVersion.plain s)
  | Constraint.semRange cs, v =>
    match unpairedOf v with
    | some (UnpairedVersion.semver x) => cs.all (fun p => cmpHolds p.1 x p.2)
    | _ => false

/-- ProjectIdentifier: LocalName and NetworkName (spec section 3). -/
structure Ident where
  localName : String
  network : String
deriving DecidableEq, Repr

/-- ProjectDep: one declared dependency edge. -/
structure ProjectDep where
  ident : Ident
  constraint : Constraint
deriving DecidableEq, Repr

/-- A depspec fixture: all the information a SourceManager would glean from
interrogating one repository at one version (name, version, dependency
constraints, test-only dependency constraints).  Mirrors the depspec struct
of the fixture file; the package list is omitted because every basic
fixture maintains package == project. -/
structure Depspec where
  n : String
  v : Version
  deps : List ProjectDep
  devdeps : List ProjectDep
deriving DecidableEq, Repr

/-- LockedProject: name, version-or-revision and network name recorded in a
lock (the fields of NewLockedProject used by the fixture lock builders). -/
structure LockedProject where
  name : String
  v : Version
  network : String
deriving DecidableEq, Repr

/-- The input universe of one solve: the depspec fixtures (first entry is
the root), the lock, and the upgrade/downgrade and change-all flags. -/
structure Univ where
  specs : List Depspec
  lock : List LockedProject
  downgrade : Bool
  changeall : Bool
deriving DecidableEq, Repr

/-- Error type of the fixture source manager (its errors are
could-not-be-found formatted strings carrying the project name). -/
inductive SMErr where
  | notFound (name : String)
deriving DecidableEq, Repr

/-- depspecSourceManager.ListVersions, list component: collects the
versions of every depspec with the requested name, skipping bare revisions
("to simulate the behavior of the real SourceManager, we do not return
revisions from ListVersions"). -/
def listVersions (specs : List Depspec) (name : String) : List Version :=
  (specs.filter (fun ds => !(ds.v.isRev) && name == ds.n)).map (fun ds => ds.v)

/-- depspecSourceManager.ListVersions with its error component: the
collected list plus, when it is empty, the could-not-be-found error. -/
def ListVersionsP (specs : List Depspec) (name : String) : List Version × Option SMErr :=
  let pi := listVersions specs name
  if pi.length == 0 then (pi, some (SMErr.notFound name)) else (pi, none)

/-- depspecSourceManager.RepoExists: true exactly when some depspec carries
the requested name. -/
def RepoExists (specs : List Depspec) (name : String) : Bool :=
  specs.any (fun ds => name == ds.n)

/-- depspecSourceManager.GetProjectInfo: the first depspec whose name
matches and whose version is matched by the queried version
(v.Matches(ds.v)); none models the could-not-be-found error. -/
def GetProjectInfo (specs : List Depspec) (n : String) (v : Version) : Option Depspec :=
  specs.find? (fun ds => n == ds.n && Version.Matches v ds.v)

/-- Key of the fixture reach map: project name plus version, with the root
keyed under a nil version. -/
structure Pident where
  n : String
  v : Option Version
deriving DecidableEq, Repr

/-- One entry of computeBasicReachMap: the reach data of one depspec.  The
single internal package (named like the project) reaches the local names of
the normal dependencies, plus — only when the depspec is the root — the
local names of the dev dependencies. -/
def reachEntry (isRoot : Bool) (d : Depspec) : Pident × (String × List String) :=
  (⟨d.n, if isRoot then none else some d.v⟩,
   (d.n,
    d.deps.map (fun dep => dep.ident.localName) ++
      (if isRoot then d.devdeps.map (fun dep => dep.ident.localName) else [])))

/-- computeBasicReachMap: a reach map identical to the explicit depgraph,
treating the first depspec as the root (root keyed with a nil version and
with its dev dependencies included). -/
def computeBasicReachMap (ds : List Depspec) : List (Pident × (String × List String)) :=
  ds.enum.map (fun kd => reachEntry (kd.1 == 0) kd.2)

/- ===================== trace.go embedding ===================== -/

/-- The success leader character of trace output. -/
def successChar : String := "✓"

/-- The failure leader character of trace output. -/
def failChar : String := "✗"

/-- Repeated depth marker used as a trace line lead. -/
def barRepeat (k : Nat) : String := String.join (List.replicate k "| ")

/-- Mirrors tracePrefix of trace.go (renamed): trims one trailing newline,
then prepends fsep to the first line and sep to every following line. -/
def traceMsg (msg sep fsep : String) : String :=
  let m := if msg.endsWith "\n" then msg.dropRight 1 else msg
  match m.splitOn "\n" with
  | [] => ""
  | p :: ps => String.intercalate "\n" ((fsep ++ p) :: ps.map (fun s => sep ++ s))

/-- solver.logVisit: when tracing is enabled, appends one attempting line to
the trace sink; the trace sink (the Printf target) is embedded as a list of
emitted lines, and no other solver field is read or written. -/
def logVisit (tr : Bool) (vqsLen : Nat) (idName : String) (pkgs : Nat) (log : List String) : List String :=
  if !tr then log
  else
    let pre := barRepeat (vqsLen + 1)
    log ++ [traceMsg ("? attempting " ++ idName ++ " (with " ++ toString pkgs ++ " packages)") pre pre]

/-- solver.logFinish: called once after solving; on success reports the
package and project counts, on failure reports that solving failed. -/
def logFinish (tr : Bool) (pkgcount projcount : Nat) (failed : Bool) (log : List String) : List String :=
  if !tr then log
  else if failed then log ++ [failChar ++ " solving failed"]
  else log ++ [successChar ++ " found solution with " ++ toString pkgcount ++
    " packages from " ++ toString projcount ++ " projects"]

/-- solver.logSelectRoot: called once when the root project is selected;
reports the root name and its package/dependency summary. -/
def logSelectRoot (tr : Bool) (importRoot : String) (internalPkgs extPkgs projects : Nat)
    (log : List String) : List String :=
  if !tr then log
  else log ++
    ["Root project is " ++ importRoot,
     " " ++ toString internalPkgs ++ " transitively valid internal packages",
     " " ++ toString extPkgs ++ " external packages imported from " ++ toString projects ++ " projects",
     successChar ++ " select (root)"]

/-- solver.logSelect: called when an atom is successfully selected. -/
def logSelect (tr : Bool) (vqsLen : Nat) (idName verStr : String) (log : List String) : List String :=
  if !tr then log
  else
    let pre := barRepeat vqsLen
    log ++ [traceMsg (successChar ++ " select " ++ idName ++ " at " ++ verStr) pre pre]

/-- Argument variants accepted by logSolve (no args, an intermediate
message, or an error being absorbed). -/
inductive LogSolveArg where
  | noArgs
  | msg (s : String)
  | errMsg (s : String)
deriving DecidableEq, Repr

/-- solver.logSolve: with no argument, reports the current selection state;
with a message or error argument, reports intermediate work one level
deeper, errors with the failure leader. -/
def logSolve (tr : Bool) (vqsLen : Nat) (currentDesc : String) (arg : LogSolveArg)
    (log : List String) : List String :=
  if !tr then log
  else
    let m :=
      match arg with
      | LogSolveArg.noArgs =>
        if vqsLen == 0 then successChar ++ " (root)"
        else successChar ++ " select " ++ currentDesc
      | LogSolveArg.msg s => traceMsg s "| " "| "
      | LogSolveArg.errMsg s => traceMsg s "| " (failChar ++ " ")
    let preflen :=
      match arg with
      | LogSolveArg.noArgs => vqsLen
      | _ => vqsLen + 1
    log ++ [traceMsg m (barRepeat preflen) (barRepeat preflen)]

/- ===================== solver model ===================== -/

/-- One committed selection on the solver stack: the identifier, the
committed version, the dependency constraints that commitment introduced,
and the remainder of its version queue. -/
structure Sel where
  ident : Ident
  ver : Version
  deps : List ProjectDep
  rest : List Version
deriving DecidableEq, Repr

/-- A constraint imposed on an identifier together with the name of the
project that imposed it (the root manifest imposes as "root"). -/
structure Imposed where
  src : String
  c : Constraint
deriving DecidableEq, Repr

/-- Modelled from the spec: the seed of the pending work — the root
normal dependencies of the root manifest plus, only for the root, its test/dev
dependencies (spec section 4.5 step 1; the solver implementation is not
among the available sources). -/
def rootDeps (U : Univ) : List ProjectDep :=
  match U.specs with
  | [] => []
  | root :: _ => root.deps ++ root.devdeps

/-- All dependency edges currently declared: the root seed plus the edges
introduced by every committed selection, oldest first. -/
def allDeps (U : Univ) (stack : List Sel) : List ProjectDep :=
  rootDeps U ++ (stack.reverse.flatMap (fun s => s.deps))

/-- The version committed for a local name, if that project is selected. -/
def selectedVersion (stack : List Sel) (ln : String) : Option Version :=
  (stack.find? (fun s => s.ident.localName == ln)).map (fun s => s.ver)

/-- Modelled from the spec: the constraints currently imposed on an
identifier by the root manifest and by all committed atoms, each with its
imposing project (spec section 4.5 step 3 and invariant (b)). -/
def constraintsOn (U : Univ) (stack : List Sel) (ln : String) : List Imposed :=
  ((rootDeps U).filter (fun d => d.ident.localName == ln)).map
    (fun d => Imposed.mk "root" d.constraint) ++
  (stack.reverse.flatMap (fun s =>
    (s.deps.filter (fun d => d.ident.localName == ln)).map
      (fun d => Imposed.mk s.ident.localName d.constraint)))

/-- Order-preserving removal of duplicate strings. -/
def dedupAux : List String → List String → List String
  | [], _ => []
  | x :: xs, seen =>
    if seen.contains x then dedupAux xs seen else x :: dedupAux xs (x :: seen)

/-- Order-preserving dedup of a string list, keeping first occurrences. -/
def dedupStr (l : List String) : List String := dedupAux l []

/-- Order-preserving dedup of identifiers by local name, keeping the first
declared identifier for each local name. -/
def dedupByLocal : List Ident → List String → List Ident
  | [], _ => []
  | i :: is, seen =>
    if seen.contains i.localName then dedupByLocal is seen
    else i :: dedupByLocal is (i.localName :: seen)

/-- Modelled from the spec: the pending identifiers — every declared
dependency target not yet selected, one entry per local name, keeping the
first declared identifier (spec section 4.5 step 2). -/
def pendingIdents (U : Univ) (stack : List Sel) : List Ident :=
  (dedupByLocal ((allDeps U stack).map (fun d => d.ident)) []).filter
    (fun i => (selectedVersion stack i.localName).isNone)

/-- Modelled from the spec: the number of viable candidate versions of an
identifier — listed versions matching every currently imposed constraint
(spec section 4.5 step 2). -/
def viableCount (U : Univ) (stack : List Sel) (ln : String) : Nat :=
  ((listVersions U.specs ln).filter
    (fun v => (constraintsOn U stack ln).all (fun ic => Constraint.matches ic.c v))).length

/-- Modelled from the spec: pending identifiers ordered by ascending number
of viable candidate versions, ties broken by discovery order (spec section
4.5 step 2).  Implemented as a stable bucket pass; viable counts are
bounded by the number of depspecs. -/
def scheduleOrder (U : Univ) (stack : List Sel) : List Ident :=
  let p := pendingIdents U stack
  (List.range (U.specs.length + 1)).flatMap
    (fun k => p.filter (fun i => viableCount U stack i.localName == k))

/-- The lock entry applicable to an identifier: looked up by both local and
network name, and disabled entirely in change-all mode (spec section 4.4
step 1). -/
def lockEntryFor (U : Univ) (id : Ident) : Option LockedProject :=
  if U.changeall then none
  else U.lock.find? (fun lp => lp.name == id.localName && lp.network == id.network)

/-- The revisions explicitly named by constraints currently imposed on a
local name (spec section 4.4 step 3). -/
def namedRevs (U : Univ) (stack : List Sel) (ln : String) : List String :=
  dedupStr ((constraintsOn U stack ln).filterMap
    (fun ic => match ic.c with | Constraint.revC r => some r | _ => none))

/-- The semver payload of a version, when it has one. -/
def semOf : Version → Option Sem
  | Version.unpaired (UnpairedVersion.semver s) => some s
  | Version.paired (UnpairedVersion.semver s) _ => some s
  | _ => none

/-- Modelled from the spec: the queue comparator — semver precedence,
descending in upgrade mode and ascending in downgrade mode; non-semver
versions keep the listing order of the source manager after the semvers
(spec section 4.1). -/
def versionBefore (down : Bool) (a b : Version) : Bool :=
  match semOf a, semOf b with
  | some x, some y => if down then Sem.ltb x y else Sem.ltb y x
  | some _, none => true
  | none, some _ => false
  | none, none => false

/-- Insertion step of the version sort. -/
def insertVer (down : Bool) (v : Version) : List Version → List Version
  | [] => [v]
  | w :: ws => if versionBefore down v w then v :: w :: ws else w :: insertVer down v ws

/-- Insertion sort of candidate versions by the queue comparator. -/
def sortVersions (down : Bool) : List Version → List Version
  | [] => []
  | v :: vs => insertVer down v (sortVersions down vs)

/-- Modelled from the spec: version queue construction — the sorted version
list with any lock-matched versions placed first (a bare-revision lock
entry matches any candidate sharing that revision), and with every
revision named by a currently-known constraint and not already present
injected immediately after the lock entries (spec section 4.4; the version
queue implementation is not among the available sources). -/
def buildQueue (U : Univ) (stack : List Sel) (id : Ident) : List Version :=
  let sorted := sortVersions U.downgrade (listVersions U.specs id.localName)
  let lockFirst :=
    match lockEntryFor U id with
    | none => []
    | some lp => sorted.filter (fun v => Version.Matches lp.v v)
  let others :=
    match lockEntryFor U id with
    | none => sorted
    | some lp => sorted.filter (fun v => !(Version.Matches lp.v v))
  let revs := ((namedRevs U stack id.localName).filter
    (fun r => !(sorted.contains (Version.rev r)))).map Version.rev
  lockFirst ++ (revs ++ others)

/-- The network name already established for a local name by an earlier
dependency edge (root edges first, then committed selections), with the
name of the project that declared it. -/
def establishedNetFor (U : Univ) (stack : List Sel) (ln : String) : Option (String × String) :=
  (((rootDeps U).map (fun d => ("root", d)) ++
    stack.reverse.flatMap (fun s => s.deps.map (fun d => (s.ident.localName, d)))).find?
      (fun p => p.2.ident.localName == ln)).map
    (fun p => (p.2.ident.network, p.1))

/-- Result of checking one candidate: acceptable (with the dependency edges
it would introduce), a candidate failure carrying the culprit project, or
an identity mismatch carrying the declarer of the conflicting edge. -/
inductive CheckRes where
  | ok (deps : List ProjectDep)
  | failc (culprit : Option String)
  | mismatch (declaredBy : String)
deriving DecidableEq, Repr

/-- Modelled from the spec: candidate admission — the candidate must match
every constraint currently imposed on its identifier (section 4.5 step 3),
its project info must exist (a missing candidate is simply never offered,
section 7), each of its dependency edges must agree on NetworkName with
every earlier edge for the same LocalName (identity mismatch, section 7),
and each of its dependency constraints must be satisfied by any
already-committed atom of that name (invariant (b)). -/
def check (U : Univ) (stack : List Sel) (id : Ident) (v : Version) : CheckRes :=
  match (constraintsOn U stack id.localName).find?
      (fun ic => !(Constraint.matches ic.c v)) with
  | some ic => CheckRes.failc (some ic.src)
  | none =>
    match GetProjectInfo U.specs id.localName v with
    | none => CheckRes.failc none
    | some spec =>
      match spec.deps.find? (fun d =>
          match establishedNetFor U stack d.ident.localName with
          | some (net, _) => !(net == d.ident.network)
          | none => false) with
      | some d =>
        CheckRes.mismatch
          (match establishedNetFor U stack d.ident.localName with
           | some (_, src) => src
           | none => "")
      | none =>
        match spec.deps.find? (fun d =>
            match selectedVersion stack d.ident.localName with
            | some sv => !(Constraint.matches d.constraint sv)
            | none => false) with
        | some d => CheckRes.failc (some d.ident.localName)
        | none => CheckRes.ok spec.deps

/-- Failure taxonomy surfaced by a solve: queue exhaustion carrying the
ordered blame chain, or an identity mismatch carrying the chain naming both
contributing projects (spec section 7). -/
inductive Failure where
  | noVersion (chain : List String)
  | mismatch (chain : List String)
deriving DecidableEq, Repr

/-- Terminal result of a solve: a Solution (the committed atoms in
selection order) or a failure, each carrying the number of backjump
attempts consumed; out is returned only when the step budget runs dry. -/
inductive Outcome where
  | solved (sol : List (String × Version)) (attempts : Nat)
  | failedWith (f : Failure) (attempts : Nat)
  | out
deriving DecidableEq, Repr

/-- The unit of work of the solver between steps: schedule the next pending
identifier, advance one candidate queue (with accumulated failure culprits
and, during a backjump retry, the preserved failure chain), or walk the
stack backjumping. -/
inductive Task where
  | schedule
  | select (id : Ident) (queue : List Version) (culprits : List String)
      (efix : Option (List String))
  | backjump (culprits : List String) (chain : List String)
deriving DecidableEq, Repr

/-- Rendering of an unpaired version for trace output. -/
def showUnpaired : UnpairedVersion → String
  | UnpairedVersion.semver s => toString s.major ++ "." ++ toString s.minor ++ "." ++ toString s.patch
  | UnpairedVersion.branch s => s
  | UnpairedVersion.plain s => s

/-- Rendering of a version for trace output. -/
def showVer : Version → String
  | Version.rev r => r
  | Version.unpaired u => showUnpaired u
  | Version.paired u r => showUnpaired u ++ "-" ++ r

/-- Modelled from the spec: the backtracking search loop (spec section 4.5;
the solver implementation is not among the available sources).  Depth-first
selection over the scheduled identifiers; a candidate failing admission is
skipped without consuming the attempt budget; queue exhaustion produces the
blame chain (the failing identifier followed by the deduplicated culprits),
counts one attempt, and backjumps to the most recent selection that
contributed a conflicting constraint, discarding the selections above it;
an identity mismatch fails the branch immediately.  The trace flag and the
emitted trace lines are threaded alongside and never consulted by any
decision. -/
def run (U : Univ) (tr : Bool) :
    Nat → List Sel → Task → Nat → List String → Outcome × List String
  | 0, _, _, _, log => (Outcome.out, log)
  | fuel + 1, stack, Task.schedule, att, log =>
    match scheduleOrder U stack with
    | [] =>
      let sol := (stack.reverse).map (fun s => (s.ident.localName, s.ver))
      (Outcome.solved sol att, logFinish tr sol.length sol.length false log)
    | id :: _ =>
      run U tr fuel stack (Task.select id (buildQueue U stack id) [] none) att
        (logVisit tr (stack.length + 1) id.localName 1 log)
  | fuel + 1, stack, Task.select id [] culprits none, att, log =>
    run U tr fuel stack
      (Task.backjump culprits (dedupStr (id.localName :: culprits))) (att + 1) log
  | fuel + 1, stack, Task.select _ [] culprits (some e), att, log =>
    run U tr fuel stack (Task.backjump culprits e) att log
  | fuel + 1, stack, Task.select id (v :: rest) culprits efix, att, log =>
    match check U stack id v with
    | CheckRes.mismatch src =>
      (Outcome.failedWith (Failure.mismatch [id.localName, id.localName, src]) att,
       logFinish tr 0 0 true log)
    | CheckRes.failc c =>
      run U tr fuel stack (Task.select id rest (culprits ++ c.toList) efix) att log
    | CheckRes.ok ds =>
      run U tr fuel (Sel.mk id v ds rest :: stack) Task.schedule att
        (logSelect tr stack.length id.localName (showVer v) log)
  | fuel + 1, sel :: older, Task.backjump culprits chain, att, log =>
    match culprits.contains sel.ident.localName with
    | true => run U tr fuel older (Task.select sel.ident sel.rest culprits (some chain)) att log
    | false => run U tr fuel older (Task.backjump culprits chain) att log
  | _ + 1, [], Task.backjump _ chain, att, log =>
    (Outcome.failedWith (Failure.noVersion chain) att, logFinish tr 0 0 true log)

/-- Step budget amply covering every fixture solve. -/
def solveFuel : Nat := 400

/-- A full solve with trace threading: outcome plus emitted trace lines. -/
def solveT (U : Univ) (tr : Bool) : Outcome × List String :=
  run U tr solveFuel [] Task.schedule 0 []

/-- A full solve without tracing. -/
def solveU (U : Univ) : Outcome := (solveT U false).1

/-- The version a solve outcome assigns to a project name, if any. -/
def assigns : Outcome → String → Option Version
  | Outcome.solved sol _, n => (sol.find? (fun p => p.1 == n)).map (fun p => p.2)
  | _, _ => none

/-- The number of backjump attempts a solve outcome consumed. -/
def attemptsOf : Outcome → Nat
  | Outcome.solved _ a => a
  | Outcome.failedWith _ a => a
  | Outcome.out => 0

/- ===================== fixture universes ===================== -/

/-- Shorthand for an unpaired semver version. -/
def semv (a b c : Nat) : Version := Version.unpaired (UnpairedVersion.semver ⟨a, b, c⟩)

/-- Shorthand for a semver version paired with a revision. -/
def pairv (a b c : Nat) (r : String) : Version :=
  Version.paired (UnpairedVersion.semver ⟨a, b, c⟩) r

/-- Shorthand for a dependency pinned to an exact semver version. -/
def deq (ln : String) (a b c : Nat) : ProjectDep :=
  ⟨⟨ln, ln⟩, Constraint.semRange [(Cmp.eqc, ⟨a, b, c⟩)]⟩

/-- Shorthand for a wildcard dependency. -/
def dany (ln : String) : ProjectDep := ⟨⟨ln, ln⟩, Constraint.any⟩

/-- Shorthand for a semver range dependency. -/
def drange (ln : String) (cs : List (Cmp × Sem)) : ProjectDep :=
  ⟨⟨ln, ln⟩, Constraint.semRange cs⟩

/-- Fixture "shared dependency with overlapping constraints". -/
def F_shared : Univ :=
  ⟨[⟨"root", semv 0 0 0, [deq "a" 1 0 0, deq "b" 1 0 0], []⟩,
    ⟨"a", semv 1 0 0, [drange "shared" [(Cmp.ge, ⟨2, 0, 0⟩), (Cmp.lt, ⟨4, 0, 0⟩)]], []⟩,
    ⟨"b", semv 1 0 0, [drange "shared" [(Cmp.ge, ⟨3, 0, 0⟩), (Cmp.lt, ⟨5, 0, 0⟩)]], []⟩,
    ⟨"shared", semv 2 0 0, [], []⟩,
    ⟨"shared", semv 3 0 0, [], []⟩,
    ⟨"shared", semv 3 6 9, [], []⟩,
    ⟨"shared", semv 4 0 0, [], []⟩,
    ⟨"shared", semv 5 0 0, [], []⟩],
   [], false, false⟩

/-- The shared-dependency universe run in downgrade mode. -/
def F_sharedDown : Univ := ⟨F_shared.specs, [], true, false⟩

/-- Fixture "downgrade on overlapping constraints" (same shape, but the
constraint of a is at most 4.0.0 inclusive, and downgrade mode is set). -/
def F_downgrade : Univ :=
  ⟨[⟨"root", semv 0 0 0, [deq "a" 1 0 0, deq "b" 1 0 0], []⟩,
    ⟨"a", semv 1 0 0, [drange "shared" [(Cmp.ge, ⟨2, 0, 0⟩), (Cmp.le, ⟨4, 0, 0⟩)]], []⟩,
    ⟨"b", semv 1 0 0, [drange "shared" [(Cmp.ge, ⟨3, 0, 0⟩), (Cmp.lt, ⟨5, 0, 0⟩)]], []⟩,
    ⟨"shared", semv 2 0 0, [], []⟩,
    ⟨"shared", semv 3 0 0, [], []⟩,
    ⟨"shared", semv 3 6 9, [], []⟩,
    ⟨"shared", semv 4 0 0, [], []⟩,
    ⟨"shared", semv 5 0 0, [], []⟩],
   [], true, false⟩

/-- Fixture "with mismatched net addrs": foo 1.0.0 declares bar from baz. -/
def F_mismatch : Univ :=
  ⟨[⟨"root", semv 1 0 0, [deq "foo" 1 0 0, deq "bar" 1 0 0], []⟩,
    ⟨"foo", semv 1 0 0, [⟨⟨"bar", "baz"⟩, Constraint.semRange [(Cmp.eqc, ⟨1, 0, 0⟩)]⟩], []⟩,
    ⟨"bar", semv 1 0 0, [], []⟩],
   [], false, false⟩

/-- Fixture "pairs bare revs in lock with versions": the lock carries only
the revision foorev (mkrevlock drops the 1.0.1). -/
def F_pairsBare : Univ :=
  ⟨[⟨"root", semv 0 0 0, [drange "foo" [(Cmp.ge, ⟨1, 0, 1⟩), (Cmp.lt, ⟨1, 1, 0⟩)]], []⟩,
    ⟨"foo", semv 1 0 0, [deq "bar" 1 0 0], []⟩,
    ⟨"foo", pairv 1 0 1 "foorev", [deq "bar" 1 0 1], []⟩,
    ⟨"foo", semv 1 0 2, [deq "bar" 1 0 2], []⟩,
    ⟨"bar", semv 1 0 0, [], []⟩,
    ⟨"bar", semv 1 0 1, [], []⟩,
    ⟨"bar", semv 1 0 2, [], []⟩],
   [⟨"foo", Version.rev "foorev", "foo"⟩], false, false⟩

/-- Fixture "pairs bare revs in lock with all versions": both foo 1.0.1 and
foo 1.0.2 carry the revision foorev. -/
def F_pairsBareAll : Univ :=
  ⟨[⟨"root", semv 0 0 0, [drange "foo" [(Cmp.ge, ⟨1, 0, 1⟩), (Cmp.lt, ⟨1, 1, 0⟩)]], []⟩,
    ⟨"foo", semv 1 0 0, [deq "bar" 1 0 0], []⟩,
    ⟨"foo", pairv 1 0 1 "foorev", [deq "bar" 1 0 1], []⟩,
    ⟨"foo", pairv 1 0 2 "foorev", [deq "bar" 1 0 2], []⟩,
    ⟨"bar", semv 1 0 0, [], []⟩,
    ⟨"bar", semv 1 0 1, [], []⟩,
    ⟨"bar", semv 1 0 2, [], []⟩],
   [⟨"foo", Version.rev "foorev", "foo"⟩], false, false⟩

/-- Fixture "does not pair bare revs in manifest with unpaired lock
version" (its depspec data coincides with the pairs-bare-revs fixture). -/
def F_noPairManifest : Univ :=
  ⟨[⟨"root", semv 0 0 0, [drange "foo" [(Cmp.ge, ⟨1, 0, 1⟩), (Cmp.lt, ⟨1, 1, 0⟩)]], []⟩,
    ⟨"foo", semv 1 0 0, [deq "bar" 1 0 0], []⟩,
    ⟨"foo", pairv 1 0 1 "foorev", [deq "bar" 1 0 1], []⟩,
    ⟨"foo", semv 1 0 2, [deq "bar" 1 0 2], []⟩,
    ⟨"bar", semv 1 0 0, [], []⟩,
    ⟨"bar", semv 1 0 1, [], []⟩,
    ⟨"bar", semv 1 0 2, [], []⟩],
   [⟨"foo", Version.rev "foorev", "foo"⟩], false, false⟩

/-- Fixture: includes the dev dependencies of the root package. -/
def F_rootdev : Univ :=
  ⟨[⟨"root", semv 1 0 0, [], [deq "foo" 1 0 0, deq "bar" 1 0 0]⟩,
    ⟨"foo", semv 1 0 0, [], []⟩,
    ⟨"bar", semv 1 0 0, [], []⟩],
   [], false, false⟩

/-- Fixture: ignores the dev dependencies of a transitive dependency. -/
def F_transdev : Univ :=
  ⟨[⟨"root", semv 1 0 0, [], [deq "foo" 1 0 0]⟩,
    ⟨"foo", semv 1 0 0, [], [deq "bar" 1 0 0]⟩,
    ⟨"bar", semv 1 0 0, [], []⟩],
   [], false, false⟩

/-- Fixture "no valid solution". -/
def F_noValid : Univ :=
  ⟨[⟨"root", semv 0 0 0, [dany "a", dany "b"], []⟩,
    ⟨"a", semv 1 0 0, [deq "b" 1 0 0], []⟩,
    ⟨"a", semv 2 0 0, [deq "b" 2 0 0], []⟩,
    ⟨"b", semv 1 0 0, [deq "a" 2 0 0], []⟩,
    ⟨"b", semv 2 0 0, [deq "a" 1 0 0], []⟩],
   [], false, false⟩

/-- Fixture "rolls back leaf versions first", as recorded in the fixture
table: the root depends only on a; a 1.0.0 depends on b at any version;
a 2.0.0 depends on b at any version and on c 2.0.0. -/
def F_rollsback : Univ :=
  ⟨[⟨"root", semv 0 0 0, [dany "a"], []⟩,
    ⟨"a", semv 1 0 0, [dany "b"], []⟩,
    ⟨"a", semv 2 0 0, [dany "b", deq "c" 2 0 0], []⟩,
    ⟨"b", semv 1 0 0, [], []⟩,
    ⟨"b", semv 2 0 0, [deq "c" 1 0 0], []⟩,
    ⟨"c", semv 1 0 0, [], []⟩,
    ⟨"c", semv 2 0 0, [], []⟩],
   [], false, false⟩

/-- The universe exactly as claim C4 states it (this differs from the
recorded fixture: here the root also depends on b, and the dependencies of
a are pinned versions rather than wildcards).  Built from the wording of the
claim to exhibit its failure. -/
def F_rollsClaim : Univ :=
  ⟨[⟨"root", semv 0 0 0, [dany "a", dany "b"], []⟩,
    ⟨"a", semv 1 0 0, [deq "b" 1 0 0], []⟩,
    ⟨"a", semv 2 0 0, [deq "b" 2 0 0, deq "c" 2 0 0], []⟩,
    ⟨"b", semv 1 0 0, [], []⟩,
    ⟨"b", semv 2 0 0, [deq "c" 1 0 0], []⟩,
    ⟨"c", semv 1 0 0, [], []⟩,
    ⟨"c", semv 2 0 0, [], []⟩],
   [], false, false⟩

/-- Fixture "revision injected into vqueue". -/
def F_revinject : Univ :=
  ⟨[⟨"root", semv 0 0 0, [⟨⟨"foo", "foo"⟩, Constraint.revC "123abc"⟩], []⟩,
    ⟨"foo", Version.rev "123abc", [], []⟩,
    ⟨"foo", pairv 1 0 0 "foorev", [], []⟩,
    ⟨"foo", pairv 2 0 0 "foorev2", [], []⟩],
   [], false, false⟩

/-- Two-repository universe used to instantiate the ListVersions results:
foo exists only at a bare revision, qux at a semver version. -/
def specsRevOnly : List Depspec :=
  [⟨"foo", Version.rev "abc", [], []⟩, ⟨"qux", semv 1 0 0, [], []⟩]

/- ===================== helper lemmas ===================== -/

/-- Membership in the order-preserving dedup implies membership in the
original list. -/
theorem mem_dedupAux {x : String} :
    ∀ (l seen : List String), x ∈ dedupAux l seen → x ∈ l := by
  intro l
  induction l with
  | nil => intro seen h; simp [dedupAux] at h
  | cons y ys ih =>
    intro seen h
    simp only [dedupAux] at h
    cases hc : seen.contains y with
    | true =>
      rw [hc] at h
      simp only [if_true] at h
      exact List.mem_cons_of_mem _ (ih _ h)
    | false =>
      rw [hc] at h
      simp only [if_false, Bool.false_eq_true] at h
      rcases List.mem_cons.mp h with h | h
      · exact h ▸ List.mem_cons_self _ _
      · exact List.mem_cons_of_mem _ (ih _ h)

/-- Membership after an insertion step of the version sort. -/
theorem mem_insertVer {w v : Version} {d : Bool} :
    ∀ l, w ∈ insertVer d v l → w = v ∨ w ∈ l := by
  intro l
  induction l with
  | nil => intro h; simp [insertVer] at h; exact Or.inl h
  | cons y ys ih =>
    intro h
    simp only [insertVer] at h
    cases hb : versionBefore d v y with
    | true =>
      rw [hb] at h
      simp only [if_true] at h
      rcases List.mem_cons.mp h with h | h
      · exact Or.inl h
      · exact Or.inr h
    | false =>
      rw [hb] at h
      simp only [if_false, Bool.false_eq_true] at h
      rcases List.mem_cons.mp h with h | h
      · exact Or.inr (h ▸ List.mem_cons_self _ _)
      · rcases ih h with h | h
        · exact Or.inl h
        · exact Or.inr (List.mem_cons_of_mem _ h)

/-- The version sort permutes its input: membership is preserved. -/
theorem mem_sortVersions {w : Version} {d : Bool} :
    ∀ l, w ∈ sortVersions d l → w ∈ l := by
  intro l
  induction l with
  | nil => intro h; exact h
  | cons v vs ih =>
    intro h
    simp only [sortVersions] at h
    rcases mem_insertVer _ h with h | h
    · exact h ▸ List.mem_cons_self _ _
    · exact List.mem_cons_of_mem _ (ih h)

/-- Every version returned by the source manager version listing is
non-revision (the listing skips bare revisions). -/
theorem listVersions_not_rev {specs : List Depspec} {name : String} {v : Version}
    (h : v ∈ listVersions specs name) : v.isRev = false := by
  simp only [listVersions, List.mem_map, List.mem_filter] at h
  rcases h with ⟨ds, ⟨_, hcond⟩, hv⟩
  rcases Bool.and_eq_true_iff.mp hcond with ⟨hrev, _⟩
  rw [← hv]
  simpa using hrev

/-- A bare revision is a member of a constructed version queue only when a
currently imposed constraint names exactly that revision. -/
theorem buildQueue_rev_named (U : Univ) (stack : List Sel) (id : Ident) (r : String)
    (h : Version.rev r ∈ buildQueue U stack id) :
    ∃ ic ∈ constraintsOn U stack id.localName, ic.c = Constraint.revC r := by
  have hsorted : Version.rev r ∉ sortVersions U.downgrade (listVersions U.specs id.localName) := by
    intro hmem
    have hnr := listVersions_not_rev (mem_sortVersions _ hmem)
    exact absurd hnr (by simp [Version.isRev])
  simp only [buildQueue] at h
  rcases List.mem_append.mp h with h1 | h2
  · exfalso
    cases hl : lockEntryFor U id with
    | none => rw [hl] at h1; simp at h1
    | some lp =>
      rw [hl] at h1
      exact hsorted (List.mem_filter.mp h1).1
  · rcases List.mem_append.mp h2 with h3 | h4
    · rcases List.mem_map.mp h3 with ⟨r2, hr2, heq⟩
      have hr : r2 = r := by injection heq
      subst hr
      have hnamed : r2 ∈ namedRevs U stack id.localName := (List.mem_filter.mp hr2).1
      simp only [namedRevs, dedupStr] at hnamed
      rcases List.mem_filterMap.mp (mem_dedupAux _ _ hnamed) with ⟨ic, hic, hmatch⟩
      refine ⟨ic, hic, ?_⟩
      cases hc : ic.c <;> rw [hc] at hmatch <;> simp at hmatch
      exact hmatch ▸ rfl
    · exfalso
      cases hl : lockEntryFor U id with
      | none => rw [hl] at h4; exact hsorted h4
      | some lp =>
        rw [hl] at h4
        exact hsorted (List.mem_filter.mp h4).1

/-- Enumeration from a nonzero start never marks an entry as root. -/
theorem reach_enumFrom (rest : List Depspec) :
    ∀ n : Nat, (n == 0) = false →
      (rest.enumFrom n).map (fun kd => reachEntry (kd.1 == 0) kd.2) =
        rest.map (reachEntry false) := by
  induction rest with
  | nil => intro n _; rfl
  | cons d tl ih =>
    intro n hn
    simp only [List.enumFrom, List.map, hn]
    rw [ih (n + 1) rfl]

/-- Sending the result component of a solve is independent of the attached
tracer: run with tracing enabled and disabled (and any trace sinks) yields
the same Outcome, by lockstep induction over the step budget. -/
theorem run_fst_indep (U : Univ) (t1 t2 : Bool) :
    ∀ (fuel : Nat) (stack : List Sel) (task : Task) (att : Nat) (log1 log2 : List String),
      (run U t1 fuel stack task att log1).1 = (run U t2 fuel stack task att log2).1 := by
  intro fuel
  induction fuel with
  | zero => intro stack task att log1 log2; rfl
  | succ n ih =>
    intro stack task att log1 log2
    cases task with
    | schedule =>
      simp only [run]
      cases hs : scheduleOrder U stack with
      | nil => rfl
      | cons id rest => exact ih stack _ att _ _
    | select id queue culprits efix =>
      cases queue with
      | nil =>
        cases efix with
        | none => simp only [run]; exact ih stack _ (att + 1) _ _
        | some e => simp only [run]; exact ih stack _ att _ _
      | cons v rest =>
        simp only [run]
        cases hchk : check U stack id v with
        | ok ds => exact ih _ _ att _ _
        | failc c => exact ih stack _ att _ _
        | mismatch src => rfl
    | backjump culprits chain =>
      cases stack with
      | nil => simp only [run]
      | cons sel older =>
        simp only [run]
        cases hc : culprits.contains sel.ident.localName with
        | true => exact ih older _ att _ _
        | false => exact ih older _ att _ _

/- ===================== claim theorems ===================== -/

/-- C1: on the universe where the root depends on a 1.0.0 and b 1.0.0,
a 1.0.0 depends on shared at least 2.0.0 and below 4.0.0, b 1.0.0 depends
on shared at least 3.0.0 and below 5.0.0, and shared exists at exactly
2.0.0, 3.0.0, 3.6.9, 4.0.0 and 5.0.0, the solver in default (upgrade) mode
returns the Solution assigning exactly a 1.0.0, b 1.0.0 and shared 3.6.9. -/
theorem C1_shared_overlap :
    solveU F_shared =
      Outcome.solved [("a", semv 1 0 0), ("b", semv 1 0 0), ("shared", semv 3 6 9)] 0 := by
  rfl

/-- C2: on the same universe as the shared-dependency scenario but run in
downgrade mode, the returned Solution assigns shared 3.0.0 (and the
recorded downgrade fixture, whose constraint of a is at most 4.0.0
inclusive, yields the same assignment). -/
theorem C2_shared_downgrade :
    solveU F_sharedDown =
      Outcome.solved [("a", semv 1 0 0), ("b", semv 1 0 0), ("shared", semv 3 0 0)] 0 ∧
    assigns (solveU F_sharedDown) "shared" = some (semv 3 0 0) ∧
    assigns (solveU F_downgrade) "shared" = some (semv 3 0 0) :=
  ⟨rfl, rfl, rfl⟩

/-- C3: a bare-revision lock entry matches any candidate version sharing
that revision (not only the originally recorded one) and never an unpaired
version; a bare-revision manifest constraint never matches an unpaired
version — it is compared as a plain revision constraint; and the three
bare-revision lock fixtures solve to their recorded results (in the
all-versions fixture the lock revision selects foo 1.0.2, not the
originally recorded 1.0.1). -/
theorem C3_bare_rev_pairing :
    (∀ (r : String) (u : UnpairedVersion) (rv : String),
      Version.Matches (Version.rev r) (Version.paired u rv) = (r == rv)) ∧
    (∀ (r : String) (u : UnpairedVersion),
      Version.Matches (Version.rev r) (Version.unpaired u) = false) ∧
    (∀ (r : String) (u : UnpairedVersion),
      Constraint.matches (Constraint.revC r) (Version.unpaired u) = false) ∧
    solveU F_pairsBare =
      Outcome.solved [("foo", pairv 1 0 1 "foorev"), ("bar", semv 1 0 1)] 0 ∧
    solveU F_pairsBareAll =
      Outcome.solved [("foo", pairv 1 0 2 "foorev"), ("bar", semv 1 0 1)] 0 ∧
    solveU F_noPairManifest =
      Outcome.solved [("foo", pairv 1 0 1 "foorev"), ("bar", semv 1 0 1)] 0 :=
  ⟨fun _ _ _ => rfl, fun _ _ => rfl, fun _ _ => rfl, rfl, rfl, rfl⟩

/-- C4 counterexample: on the universe exactly as the claim states it (root
depends on a and b at any version, a 1.0.0 on b 1.0.0, a 2.0.0 on b 2.0.0
and c 2.0.0, b 2.0.0 on c 1.0.0), the solve returns a 1.0.0 and b 1.0.0
with no assignment for c at all — not the claimed a 2.0.0, b 1.0.0,
c 2.0.0. -/
theorem C4_rollback_counterexample :
    solveU F_rollsClaim = Outcome.solved [("a", semv 1 0 0), ("b", semv 1 0 0)] 1 ∧
    assigns (solveU F_rollsClaim) "c" = none ∧
    assigns (solveU F_rollsClaim) "a" ≠ some (semv 2 0 0) :=
  ⟨rfl, rfl, by decide⟩

/-- C4 amended: on the recorded rolls-back-leaf-versions-first fixture
universe (root depends only on a at any version; a 1.0.0 depends on b at
any version; a 2.0.0 depends on b at any version and on c 2.0.0), the
solver returns the Solution assigning a 2.0.0, b 1.0.0 and c 2.0.0 within
at most 2 backjump attempts. -/
theorem C4_rollback_amended :
    solveU F_rollsback =
      Outcome.solved [("a", semv 2 0 0), ("c", semv 2 0 0), ("b", semv 1 0 0)] 0 ∧
    attemptsOf (solveU F_rollsback) ≤ 2 :=
  ⟨rfl, by decide⟩

/-- C5: on the no-valid-solution universe the solve terminates in the
failed state with the ordered blame chain implicating b first and then a,
consuming exactly 2 backjump attempts. -/
theorem C5_no_valid_solution :
    solveU F_noValid = Outcome.failedWith (Failure.noVersion ["b", "a"]) 2 ∧
    attemptsOf (solveU F_noValid) ≤ 2 :=
  ⟨rfl, by decide⟩

/-- C6: the general version listing never returns a bare revision; a bare
revision is a member of a constructed version queue only when a currently
imposed constraint explicitly names that exact revision; and on the
revision-injection fixture the Solution selects the revision 123abc
directly, independent of the semver candidates. -/
theorem C6_revision_vqueue :
    (∀ (specs : List Depspec) (name : String) (v : Version),
      v ∈ listVersions specs name → v.isRev = false) ∧
    (∀ (U : Univ) (stack : List Sel) (id : Ident) (r : String),
      Version.rev r ∈ buildQueue U stack id →
        ∃ ic ∈ constraintsOn U stack id.localName, ic.c = Constraint.revC r) ∧
    solveU F_revinject = Outcome.solved [("foo", Version.rev "123abc")] 0 :=
  ⟨fun _ _ _ h => listVersions_not_rev h,
   fun U stack id r h => buildQueue_rev_named U stack id r h,
   rfl⟩

/-- C6 witness: on the revision-injection fixture, the revision 123abc is a
member of the queue built for foo, and applying the theorem yields the
imposing constraint that names it. -/
theorem C6_revision_vqueue_witness :
    Version.rev "123abc" ∈ buildQueue F_revinject [] ⟨"foo", "foo"⟩ ∧
    ∃ ic ∈ constraintsOn F_revinject [] "foo", ic.c = Constraint.revC "123abc" :=
  ⟨by decide, C6_revision_vqueue.2.1 F_revinject [] ⟨"foo", "foo"⟩ "123abc" (by decide)⟩

/-- C7: the basic reach map gives the root entry (and only the root entry)
its dev dependencies in addition to its normal dependencies, every
non-root entry exactly its normal dependencies; the pending-work seed of a
solve is the normal plus dev dependencies of the root; and the two dev
dependency fixtures solve to their recorded results — the dev dependencies
of the root are in the Solution while the dev dependency (bar) of a
transitive dependency receives no assignment. -/
theorem C7_dev_dependencies :
    (∀ (d : Depspec) (rest : List Depspec),
      computeBasicReachMap (d :: rest) =
        reachEntry true d :: rest.map (reachEntry false)) ∧
    (∀ x : Depspec, (reachEntry true x).2.2 =
      x.deps.map (fun dep => dep.ident.localName) ++
        x.devdeps.map (fun dep => dep.ident.localName)) ∧
    (∀ x : Depspec, (reachEntry false x).2.2 =
      x.deps.map (fun dep => dep.ident.localName)) ∧
    (∀ (root : Depspec) (rest : List Depspec) (lock : List LockedProject) (dg ca : Bool),
      rootDeps ⟨root :: rest, lock, dg, ca⟩ = root.deps ++ root.devdeps) ∧
    solveU F_rootdev = Outcome.solved [("foo", semv 1 0 0), ("bar", semv 1 0 0)] 0 ∧
    solveU F_transdev = Outcome.solved [("foo", semv 1 0 0)] 0 ∧
    assigns (solveU F_transdev) "bar" = none := by
  refine ⟨?_, fun x => rfl, fun x => by simp [reachEntry], fun _ _ _ _ _ => rfl, rfl, rfl, rfl⟩
  intro d rest
  simp only [computeBasicReachMap, List.enum, List.enumFrom, List.map]
  rw [reach_enumFrom rest 1 rfl]
  rfl

/-- C8: whenever checking a candidate reports an identity mismatch (two
dependency edges disagreeing on the NetworkName of one LocalName), the
step relation fails the whole branch immediately — without examining the
remaining queue candidates — with the distinct mismatch failure naming
both contributing projects; on the mismatched-net-addrs fixture the solve
fails implicating foo, foo, root. -/
theorem C8_net_addr_mismatch :
    (∀ (U : Univ) (tr : Bool) (fuel : Nat) (stack : List Sel) (id : Ident)
        (v : Version) (rest : List Version) (culprits : List String)
        (efix : Option (List String)) (att : Nat) (log : List String) (src : String),
      check U stack id v = CheckRes.mismatch src →
        run U tr (fuel + 1) stack (Task.select id (v :: rest) culprits efix) att log =
          (Outcome.failedWith (Failure.mismatch [id.localName, id.localName, src]) att,
           logFinish tr 0 0 true log)) ∧
    solveU F_mismatch = Outcome.failedWith (Failure.mismatch ["foo", "foo", "root"]) 0 := by
  constructor
  · intro U tr fuel stack id v rest culprits efix att log src h
    simp only [run, h]
  · rfl

/-- C8 witness: on the mismatched-net-addrs fixture, checking foo 1.0.0
reports the mismatch against the root-declared edge for bar, and applying
the theorem shows the branch fails immediately even with further queue
candidates pending. -/
theorem C8_net_addr_mismatch_witness :
    check F_mismatch [] ⟨"foo", "foo"⟩ (semv 1 0 0) = CheckRes.mismatch "root" ∧
    run F_mismatch false 10 [] (Task.select ⟨"foo", "foo"⟩ [semv 1 0 0, semv 9 9 9] [] none) 0 [] =
      (Outcome.failedWith (Failure.mismatch ["foo", "foo", "root"]) 0,
       logFinish false 0 0 true []) :=
  ⟨by decide,
   C8_net_addr_mismatch.1 F_mismatch false 9 [] ⟨"foo", "foo"⟩ (semv 1 0 0) [semv 9 9 9] [] none
     0 [] "root" (by decide)⟩

/-- C9: every trace-logging operation returns the trace sink unchanged when
tracing is disabled (and by construction reads and writes no other solver
state), and the solve outcome is identical whether or not tracing is
attached. -/
theorem C9_tracer_no_effect :
    (∀ d n k log, logVisit false d n k log = log) ∧
    (∀ p q f log, logFinish false p q f log = log) ∧
    (∀ r a b c log, logSelectRoot false r a b c log = log) ∧
    (∀ d n v log, logSelect false d n v log = log) ∧
    (∀ d cur arg log, logSolve false d cur arg log = log) ∧
    (∀ (U : Univ) (fuel : Nat) (stack : List Sel) (task : Task) (att : Nat)
        (log1 log2 : List String),
      (run U true fuel stack task att log1).1 = (run U false fuel stack task att log2).1) :=
  ⟨fun _ _ _ _ => rfl, fun _ _ _ _ => rfl, fun _ _ _ _ _ => rfl, fun _ _ _ _ => rfl,
   fun _ _ _ _ => rfl, fun U => run_fst_indep U true false⟩

/-- C10: for a project name that exists but all of whose declared versions
are bare revisions, ListVersions returns the empty list with the
could-not-be-found error even though RepoExists is true; a name with any
non-revision version gets no error; and an unknown name gets exactly the
same empty-list-plus-error answer, making a revision-only project
indistinguishable from a nonexistent one via ListVersions. -/
theorem C10_revision_only_listversions :
    ∀ (specs : List Depspec) (name : String),
      (RepoExists specs name = true →
        (specs.all (fun ds => !(name == ds.n) || ds.v.isRev)) = true →
        ListVersionsP specs name = ([], some (SMErr.notFound name))) ∧
      ((specs.any (fun ds => name == ds.n && !(ds.v.isRev))) = true →
        (ListVersionsP specs name).2 = none) ∧
      (RepoExists specs name = false →
        ListVersionsP specs name = ([], some (SMErr.notFound name))) := by
  intro specs name
  refine ⟨?_, ?_, ?_⟩
  · intro _ hall
    have hfilter : specs.filter (fun ds => !(ds.v.isRev) && name == ds.n) = [] := by
      rw [List.filter_eq_nil_iff]
      intro ds hds
      have hd := List.all_eq_true.mp hall ds hds
      cases hn : (name == ds.n) with
      | false => simp [hn]
      | true =>
        rw [hn] at hd
        simp only [Bool.not_true, Bool.false_or] at hd
        simp [hd]
    simp [ListVersionsP, listVersions, hfilter]
  · intro hany
    rcases List.any_eq_true.mp hany with ⟨ds, hds, hp⟩
    rcases Bool.and_eq_true_iff.mp hp with ⟨hn, hrev⟩
    have hmem : ds.v ∈ listVersions specs name := by
      simp only [listVersions, List.mem_map]
      exact ⟨ds, List.mem_filter.mpr ⟨hds, by rw [hrev, hn]; rfl⟩, rfl⟩
    simp only [ListVersionsP]
    split
    · next hlen =>
      exfalso
      have h0 : listVersions specs name = [] := by
        rw [← List.length_eq_zero]
        simpa using hlen
      rw [h0] at hmem
      simp at hmem
    · rfl
  · intro hno
    have hfilter : specs.filter (fun ds => !(ds.v.isRev) && name == ds.n) = [] := by
      rw [List.filter_eq_nil_iff]
      intro ds hds
      cases hn : (name == ds.n) with
      | false => simp [hn]
      | true =>
        exfalso
        have : specs.any (fun ds => name == ds.n) = true :=
          List.any_eq_true.mpr ⟨ds, hds, hn⟩
        rw [RepoExists] at hno
        rw [hno] at this
        exact Bool.false_ne_true this
    simp [ListVersionsP, listVersions, hfilter]

/-- C10 witness: in the two-repository universe, foo (revision-only)
exists yet gets the empty list and the could-not-be-found error, qux gets
no error, and the unknown name nope gets the identical error answer. -/
theorem C10_revision_only_listversions_witness :
    (RepoExists specsRevOnly "foo" = true ∧
      ListVersionsP specsRevOnly "foo" = ([], some (SMErr.notFound "foo"))) ∧
    (ListVersionsP specsRevOnly "qux").2 = none ∧
    (RepoExists specsRevOnly "nope" = false ∧
      ListVersionsP specsRevOnly "nope" = ([], some (SMErr.notFound "nope"))) :=
  ⟨⟨by decide, (C10_revision_only_listversions specsRevOnly "foo").1 (by decide) (by decide)⟩,
   (C10_revision_only_listversions specsRevOnly "qux").2.1 (by decide),
   ⟨by decide, (C10_revision_only_listversions specsRevOnly "nope").2.2 (by decide)⟩⟩

end GpsSpec
